import Mathlib

/-!
Verification of the command coordination layer of a personal audio archive
(`src/commands.py`, class `Commander`).

The pure arithmetic (`_calculatePercent`, `_cropSound`) is embedded over `ℚ`
(Python float division modelled as exact rational division, Python `int(...)`
as truncation toward zero, Python byte strings as `List ℕ`, Python slicing
with its clamping semantics).  The orchestration methods (`playAudio`,
`playAudioWait`, `playSequence`, `playParallel`, `_saveAudio`) are embedded as
explicit state transformers over an archive state, producing an event trace
recording resolution, `last_played` updates, file checks, sink submissions,
archive removals/saves, and waits, together with an `Except` result standing
for the Python exception behaviour.  The external collaborators are modelled
by their contracts: storage as a list of metadata entries, the effects engine
as an arbitrary deterministic function parameter, the playback sink as a
handle counter.
-/

deriving instance DecidableEq for Except

namespace AudioArchive

/-- Python `int(...)` applied to a rational: truncation toward zero. -/
def pyint (q : ℚ) : ℤ := if 0 ≤ q then ⌊q⌋ else -⌊-q⌋

/-- The exceptions raised by `Commander` operations and its collaborators:
`NameMissing`, `FileNotFoundError`, `NameExists`, `ValueError`,
`ZeroDivisionError`, `NotImplementedError`. -/
inductive CmdError where
  | nameMissing (name : String)
  | fileNotFound (path : String)
  | nameExists (name : String)
  | valueError
  | zeroDivisionError
  | notImplementedError
deriving DecidableEq

/-- Python slice `xs[i : j]` (step 1): a negative index counts from the end,
and both bounds are clamped to `[0, len xs]`. -/
def pySlice (xs : List ℕ) (i j : ℤ) : List ℕ :=
  let n : ℤ := xs.length
  let lo : ℤ := if i < 0 then max (i + n) 0 else min i n
  let hi : ℤ := if j < 0 then max (j + n) 0 else min j n
  (xs.take hi.toNat).drop lo.toNat

/-- The local helper `calculate_index` of `Commander._cropSound`:
`int(percent * len(audio_data) / (bytes_per_sample * num_channels)) *
(bytes_per_sample * num_channels)`. -/
def calculate_index (audio_data : List ℕ) (bytes_per_sample num_channels : ℕ)
    (percent : ℚ) : ℤ :=
  pyint (percent * (audio_data.length : ℚ) /
      ((bytes_per_sample * num_channels : ℕ) : ℚ)) *
    (bytes_per_sample * num_channels : ℕ)

/-- `Commander._cropSound`.  `None` positions default to `0` and `1`; values
outside `[0, 1]` or a start not strictly below the end raise `ValueError`;
then the byte string is sliced between the two computed frame-aligned
indices.  A zero frame size would make `calculate_index` divide by zero
(Python `ZeroDivisionError`); that is modelled as a check placed where the
first index computation happens. -/
def cropSound (audio_data : List ℕ) (bytes_per_sample num_channels : ℕ)
    (start_percent end_percent : Option ℚ) : Except CmdError (List ℕ) :=
  let sp := start_percent.getD 0
  let ep := end_percent.getD 1
  if min sp ep < 0 ∨ max sp ep > 1 then .error .valueError
  else if sp ≥ ep then .error .valueError
  else if bytes_per_sample * num_channels = 0 then .error .zeroDivisionError
  else .ok (pySlice audio_data
      (calculate_index audio_data bytes_per_sample num_channels sp)
      (calculate_index audio_data bytes_per_sample num_channels ep))

/-- `Commander._calculatePercent`.  `total_duration_seconds =
len(audio_data) / (sample_rate * bytes_per_sample * num_channels)`; a given
`start_sec`/`end_sec` is divided by that duration (Python raises
`ZeroDivisionError` when the divisor is zero), a missing one defaults to
`0`/`1`. -/
def calculatePercent (audio_data : List ℕ)
    (bytes_per_sample num_channels sample_rate : ℕ)
    (start_sec end_sec : Option ℚ) : Except CmdError (ℚ × ℚ) :=
  if sample_rate * bytes_per_sample * num_channels = 0 then
    .error .zeroDivisionError
  else
    let total : ℚ := (audio_data.length : ℚ) /
      ((sample_rate * bytes_per_sample * num_channels : ℕ) : ℚ)
    match start_sec, end_sec with
    | none, none => .ok (0, 1)
    | none, some e =>
        if total = 0 then .error .zeroDivisionError else .ok (0, e / total)
    | some s, none =>
        if total = 0 then .error .zeroDivisionError else .ok (s / total, 1)
    | some s, some e =>
        if total = 0 then .error .zeroDivisionError
        else .ok (s / total, e / total)

/-! ## The orchestration model

`Commander.playAudio` and the operations built on it are embedded as state
transformers returning the new state, the event trace of the call, and an
`Except` result (`.error` standing for a raised Python exception, which
aborts the rest of the call). -/

/-- One archive entry as seen through the storage collaborator: its unique
name, its backing file path, whether `file_path.is_file()` currently holds,
and its `last_played` timestamp. -/
structure AudioMetadata where
  name : String
  file_path : String
  fileOk : Bool
  lastPlayed : Option ℕ
deriving DecidableEq

/-- The visible state of the storage collaborator: the list of archive entries. -/
abbrev Storage := List AudioMetadata

/-- `storage.getByName(name)`: the entry with the given name, if any. -/
def getByName (s : Storage) (n : String) : Option AudioMetadata :=
  s.find? (fun a => a.name == n)

/-- `storage.updateLastPlayed(name)`: stamp the entry with the current
time. -/
def updateLastPlayedS (s : Storage) (n : String) (now : ℕ) : Storage :=
  s.map (fun a => if a.name == n then { a with lastPlayed := some now } else a)

/-- `storage.removeSound(name)`: drop the entry, or raise `NameMissing`. -/
def removeSoundS (s : Storage) (n : String) : Except CmdError Storage :=
  if s.any (fun a => a.name == n) then
    .ok (s.filter (fun a => a.name != n))
  else .error (.nameMissing n)

/-- `storage.addSound(path, name)`: register a freshly written file under
`name`, or raise `NameExists` when the name is taken.  The file was just
written by `_saveAudio`, so it exists and its entry starts unplayed. -/
def addSoundS (s : Storage) (path n : String) : Except CmdError Storage :=
  if s.any (fun a => a.name == n) then .error (.nameExists n)
  else .ok (s ++ [⟨n, path, true, none⟩])

/-- The decoded sample buffer returned by the effects engine. -/
structure WavData where
  frames : List ℕ
  num_channels : ℕ
  sample_width : ℕ
  frame_rate : ℕ
deriving DecidableEq

/-- A `playback_options` object, as consumed by `Commander`. -/
structure PlaybackOptions where
  effects : List String
  start_sec : Option ℚ
  end_sec : Option ℚ
  save : Option String
deriving DecidableEq

/-- The observable events of one orchestration call, in program order:
storage resolution, the `last_played` update, the `is_file` check, the
submission of a buffer to the playback sink (which yields a numbered
handle), archive entry removal, `_saveAudio` registering an entry, and a
`wait_done` on a handle. -/
inductive Event where
  | resolve (name : String)
  | updateLastPlayed (name : String)
  | fileCheck (name : String)
  | issue (handle : ℕ) (name : String) (wav : WavData)
  | removeEntry (name : String)
  | saveEntry (name : String)
  | wait (handle : ℕ)
deriving DecidableEq

/-- Mutable state threaded through an orchestration call: the storage and
the next playback-handle number of the sink. -/
structure CState where
  storage : Storage
  nextHandle : ℕ
deriving DecidableEq

/-- The file path `_saveAudio` writes to: `f"sounds/{name}output.wav"`. -/
def savePath (n : String) : String := "sounds/" ++ n ++ "output.wav"

/-- `Commander.playAudio(name, options)`.  `editFn` is the external effects
engine (`edit(str(file_path), options)`, deterministic per its contract) and
`now` the current timestamp.  Steps, in source order: resolve the name
(raising `NameMissing`), update `last_played`, check the backing file
(raising `FileNotFoundError`), run the effects engine, submit the buffer to
the sink obtaining a handle, and, when `options.save` is set, remove the old
entry first when saving under the same name, then `_saveAudio` (write the
file and `addSound` it).  The handle is returned. -/
def playAudio (editFn : String → PlaybackOptions → WavData) (now : ℕ)
    (st : CState) (name : String) (options : PlaybackOptions) :
    CState × List Event × Except CmdError ℕ :=
  match getByName st.storage name with
  | none => (st, [Event.resolve name], .error (.nameMissing name))
  | some audio =>
    let st1 : CState := { st with storage := updateLastPlayedS st.storage name now }
    if audio.fileOk = false then
      (st1, [Event.resolve name, Event.updateLastPlayed name, Event.fileCheck name],
        .error (.fileNotFound audio.file_path))
    else
      let wav := editFn audio.file_path options
      let h := st1.nextHandle
      let st2 : CState := { st1 with nextHandle := h + 1 }
      let tr2 : List Event := [Event.resolve name, Event.updateLastPlayed name,
        Event.fileCheck name, Event.issue h name wav]
      match options.save with
      | none => (st2, tr2, .ok h)
      | some sname =>
        if sname = name then
          match removeSoundS st2.storage name with
          | .error e => (st2, tr2, .error e)
          | .ok stor3 =>
            match addSoundS stor3 (savePath sname) sname with
            | .error e => ({ st2 with storage := stor3 },
                tr2 ++ [Event.removeEntry name], .error e)
            | .ok stor4 => ({ st2 with storage := stor4 },
                tr2 ++ [Event.removeEntry name, Event.saveEntry sname], .ok h)
        else
          match addSoundS st2.storage (savePath sname) sname with
          | .error e => (st2, tr2, .error e)
          | .ok stor3 => ({ st2 with storage := stor3 },
              tr2 ++ [Event.saveEntry sname], .ok h)

/-- `Commander.playAudioWait(name, options)`: `playAudio` followed by
`wait_done()` on the returned handle. -/
def playAudioWait (editFn : String → PlaybackOptions → WavData) (now : ℕ)
    (st : CState) (name : String) (options : PlaybackOptions) :
    CState × List Event × Except CmdError Unit :=
  match playAudio editFn now st name options with
  | (st1, tr, .error e) => (st1, tr, .error e)
  | (st1, tr, .ok h) => (st1, tr ++ [Event.wait h], .ok ())

/-- The loop body of `Commander.playSequence`: `playAudioWait` on each name
in order, a raised exception aborting the remaining names. -/
def seqLoop (editFn : String → PlaybackOptions → WavData) (now : ℕ)
    (st : CState) (names : List String) (options : PlaybackOptions) :
    CState × List Event × Except CmdError Unit :=
  match names with
  | [] => (st, [], .ok ())
  | n :: rest =>
    match playAudioWait editFn now st n options with
    | (st1, tr, .error e) => (st1, tr, .error e)
    | (st1, tr, .ok _) =>
      let (st2, tr2, r) := seqLoop editFn now st1 rest options
      (st2, tr ++ tr2, r)

/-- `Commander.playSequence(names, options)`: the save-arity check
(`NotImplementedError` when more than one name comes with a save target),
then `playAudioWait` on each name in order. -/
def playSequence (editFn : String → PlaybackOptions → WavData) (now : ℕ)
    (st : CState) (names : List String) (options : PlaybackOptions) :
    CState × List Event × Except CmdError Unit :=
  if names.length > 1 ∧ options.save ≠ none then
    (st, [], .error .notImplementedError)
  else seqLoop editFn now st names options

/-- The first loop of `Commander.playParallel`: `playAudio` on each name,
collecting the handles; a raised exception aborts the remaining names. -/
def issueLoop (editFn : String → PlaybackOptions → WavData) (now : ℕ)
    (st : CState) (names : List String) (options : PlaybackOptions) :
    CState × List Event × Except CmdError (List ℕ) :=
  match names with
  | [] => (st, [], .ok [])
  | n :: rest =>
    match playAudio editFn now st n options with
    | (st1, tr, .error e) => (st1, tr, .error e)
    | (st1, tr, .ok h) =>
      match issueLoop editFn now st1 rest options with
      | (st2, tr2, .error e) => (st2, tr ++ tr2, .error e)
      | (st2, tr2, .ok hs) => (st2, tr ++ tr2, .ok (h :: hs))

/-- `Commander.playParallel(names, options)`: the save-arity check, then the
issuing loop over all names, then `wait_done()` on each collected handle in
issuance order. -/
def playParallel (editFn : String → PlaybackOptions → WavData) (now : ℕ)
    (st : CState) (names : List String) (options : PlaybackOptions) :
    CState × List Event × Except CmdError Unit :=
  if names.length > 1 ∧ options.save ≠ none then
    (st, [], .error .notImplementedError)
  else
    match issueLoop editFn now st names options with
    | (st1, tr, .error e) => (st1, tr, .error e)
    | (st1, tr, .ok hs) => (st1, tr ++ hs.map Event.wait, .ok ())

/-! ## Trace observations -/

/-- The handles submitted to the sink, in trace order. -/
def issuedHandles (tr : List Event) : List ℕ :=
  tr.filterMap (fun ev => match ev with
    | .issue h _ _ => some h
    | _ => none)

/-- The handles waited on, in trace order. -/
def waitedHandles (tr : List Event) : List ℕ :=
  tr.filterMap (fun ev => match ev with
    | .wait h => some h
    | _ => none)

/-- The subsequence of sink submissions (`(true, handle)`) and waits
(`(false, handle)`) of a trace, in order. -/
def issueWaitSeq (tr : List Event) : List (Bool × ℕ) :=
  tr.filterMap (fun ev => match ev with
    | .issue h _ _ => some (true, h)
    | .wait h => some (false, h)
    | _ => none)

/-- How many entries of the archive carry the given name. -/
def countName (s : Storage) (n : String) : ℕ :=
  s.countP (fun a => a.name == n)

/-- Archive-wide uniqueness of names. -/
def uniqueNames (s : Storage) : Prop :=
  ∀ n, countName s n ≤ 1

/-- The issue/wait pattern of a strictly synchronous playback of the given
handles: each handle is submitted and then waited on before the next
submission. -/
def pairSeq : List ℕ → List (Bool × ℕ)
  | [] => []
  | h :: rest => (true, h) :: (false, h) :: pairSeq rest

/-! ## Storage lemmas -/

theorem getByName_update (s : Storage) (n : String) (now : ℕ) (a : AudioMetadata)
    (h : getByName s n = some a) :
    getByName (updateLastPlayedS s n now) n
      = some { a with lastPlayed := some now } := by
  unfold getByName at h ⊢
  unfold updateLastPlayedS
  induction s with
  | nil => simp at h
  | cons hd tl ih =>
    simp only [List.map_cons]
    by_cases hh : (hd.name == n) = true
    · rw [@List.find?_cons_of_pos _ (fun x : AudioMetadata => x.name == n) hd tl hh] at h
      obtain rfl : hd = a := Option.some.inj h
      rw [if_pos hh]
      exact @List.find?_cons_of_pos _ (fun x : AudioMetadata => x.name == n) _ _ (by simpa using hh)
    · rw [@List.find?_cons_of_neg _ (fun x : AudioMetadata => x.name == n) hd tl hh] at h
      rw [if_neg hh,
        @List.find?_cons_of_neg _ (fun x : AudioMetadata => x.name == n) hd _ hh]
      exact ih h

theorem any_name_update (s : Storage) (n : String) (now : ℕ) (a : AudioMetadata)
    (h : getByName s n = some a) :
    (updateLastPlayedS s n now).any (fun x : AudioMetadata => x.name == n) = true := by
  have h2 := getByName_update s n now a h
  unfold getByName at h2
  rw [List.any_eq_true]
  exact ⟨_, @List.mem_of_find?_eq_some _ (fun x : AudioMetadata => x.name == n) _ _ h2,
    @List.find?_some _ (fun x : AudioMetadata => x.name == n) _ _ h2⟩

theorem any_name_filter_self (s : Storage) (n : String) :
    (s.filter (fun a => a.name != n)).any (fun a => a.name == n) = false := by
  rw [List.any_eq_false]
  intro x hx
  rw [List.mem_filter] at hx
  simpa using hx.2

theorem countName_update (s : Storage) (n : String) (now : ℕ) (m : String) :
    countName (updateLastPlayedS s n now) m = countName s m := by
  unfold countName updateLastPlayedS
  induction s with
  | nil => rfl
  | cons hd tl ih =>
    rw [List.map_cons, List.countP_cons, List.countP_cons, ih]
    by_cases hh : (hd.name == n) = true
    · rw [if_pos hh]
    · rw [if_neg hh]

theorem countName_filter_self (s : Storage) (n : String) :
    countName (s.filter (fun a => a.name != n)) n = 0 := by
  unfold countName
  rw [List.countP_eq_zero]
  intro a ha
  rw [List.mem_filter] at ha
  simpa using ha.2

theorem countName_filter_le (s : Storage) (p : AudioMetadata → Bool) (m : String) :
    countName (s.filter p) m ≤ countName s m := by
  unfold countName
  exact List.Sublist.countP_le _ (List.filter_sublist s)

theorem countName_append (s t : Storage) (m : String) :
    countName (s ++ t) m = countName s m + countName t m := by
  unfold countName
  exact List.countP_append _ _ _

/-! ## Crop arithmetic lemmas -/

theorem calculate_index_eq (audio_data : List ℕ) (bps nc tfc : ℕ) (p : ℚ)
    (hfs : 0 < bps * nc) (hlen : audio_data.length = tfc * (bps * nc))
    (hp : 0 ≤ p) :
    calculate_index audio_data bps nc p = ⌊p * (tfc : ℚ)⌋ * ((bps * nc : ℕ) : ℤ) := by
  have hQ : ((bps * nc : ℕ) : ℚ) ≠ 0 := Nat.cast_ne_zero.mpr hfs.ne'
  have harg : p * ((audio_data.length : ℕ) : ℚ) / ((bps * nc : ℕ) : ℚ)
      = p * (tfc : ℚ) := by
    rw [hlen, Nat.cast_mul, ← mul_assoc, mul_div_assoc, div_self hQ, mul_one]
  have hnn : 0 ≤ p * (tfc : ℚ) := mul_nonneg hp (Nat.cast_nonneg tfc)
  unfold calculate_index pyint
  rw [harg, if_pos hnn]

theorem pySlice_natCast (xs : List ℕ) (a b : ℕ) :
    pySlice xs (a : ℤ) (b : ℤ) = (xs.take b).drop a := by
  have ha : ¬((a : ℤ) < 0) := by omega
  have hb : ¬((b : ℤ) < 0) := by omega
  simp only [pySlice, if_neg ha, if_neg hb]
  have hmina : min (a : ℤ) (xs.length : ℤ) = ((min a xs.length : ℕ) : ℤ) := by
    omega
  have hminb : min (b : ℤ) (xs.length : ℤ) = ((min b xs.length : ℕ) : ℤ) := by
    omega
  rw [hmina, hminb, Int.toNat_natCast, Int.toNat_natCast]
  rcases le_total b xs.length with hble | hbge
  · rw [min_eq_left hble]
    rcases le_total a xs.length with hale | hage
    · rw [min_eq_left hale]
    · rw [min_eq_right hage]
      have h1 : (xs.take b).length ≤ xs.length := by
        simp [List.length_take]
      rw [List.drop_eq_nil_of_le h1, List.drop_eq_nil_of_le (by omega)]
  · rw [min_eq_right hbge, List.take_length, List.take_of_length_le hbge]
    rcases le_total a xs.length with hale | hage
    · rw [min_eq_left hale]
    · rw [min_eq_right hage]
      rw [List.drop_eq_nil_of_le (le_refl _), List.drop_eq_nil_of_le hage]

theorem cropSound_ok (audio_data : List ℕ) (bps nc tfc : ℕ) (sp ep : ℚ)
    (hfs : 0 < bps * nc) (hlen : audio_data.length = tfc * (bps * nc))
    (h0 : 0 ≤ sp) (h1 : ep ≤ 1) (hlt : sp < ep) :
    cropSound audio_data bps nc (some sp) (some ep) =
      .ok ((audio_data.take ((⌊ep * (tfc : ℚ)⌋).toNat * (bps * nc))).drop
        ((⌊sp * (tfc : ℚ)⌋).toNat * (bps * nc))) := by
  have hep0 : 0 ≤ ep := le_trans h0 hlt.le
  have hsp1 : sp ≤ 1 := le_trans hlt.le h1
  have hc1 : ¬(min sp ep < 0 ∨ max sp ep > 1) := by
    push_neg
    exact ⟨le_min h0 hep0, max_le hsp1 h1⟩
  have hc2 : ¬(sp ≥ ep) := not_le.mpr hlt
  have hc3 : ¬(bps * nc = 0) := hfs.ne'
  have hfl1 : 0 ≤ ⌊sp * (tfc : ℚ)⌋ :=
    Int.le_floor.mpr (by exact_mod_cast mul_nonneg h0 (Nat.cast_nonneg tfc))
  have hfl2 : 0 ≤ ⌊ep * (tfc : ℚ)⌋ :=
    Int.le_floor.mpr (by exact_mod_cast mul_nonneg hep0 (Nat.cast_nonneg tfc))
  have hA := calculate_index_eq audio_data bps nc tfc sp hfs hlen h0
  have hB := calculate_index_eq audio_data bps nc tfc ep hfs hlen hep0
  have eA : calculate_index audio_data bps nc sp
      = (((⌊sp * (tfc : ℚ)⌋).toNat * (bps * nc) : ℕ) : ℤ) := by
    rw [hA]
    push_cast [Int.toNat_of_nonneg hfl1]
    ring
  have eB : calculate_index audio_data bps nc ep
      = (((⌊ep * (tfc : ℚ)⌋).toNat * (bps * nc) : ℕ) : ℤ) := by
    rw [hB]
    push_cast [Int.toNat_of_nonneg hfl2]
    ring
  simp only [cropSound, Option.getD_some, if_neg hc1, if_neg hc2, if_neg hc3,
    eA, eB, pySlice_natCast]

theorem floor_mul_le_tfc (p : ℚ) (tfc : ℕ) (hp : p ≤ 1) :
    (⌊p * (tfc : ℚ)⌋).toNat ≤ tfc := by
  have h1 : p * (tfc : ℚ) ≤ (tfc : ℚ) := by
    have := mul_le_mul_of_nonneg_right hp (Nat.cast_nonneg (α := ℚ) tfc)
    simpa using this
  have h2 : ⌊p * (tfc : ℚ)⌋ ≤ (tfc : ℤ) := by
    calc ⌊p * (tfc : ℚ)⌋ ≤ ⌊((tfc : ℤ) : ℚ)⌋ := Int.floor_mono (by exact_mod_cast h1)
    _ = (tfc : ℤ) := Int.floor_intCast tfc
  exact Int.toNat_le.mpr h2

theorem take_drop_length (xs : List ℕ) (a b : ℕ) (hb : b ≤ xs.length) :
    ((xs.take b).drop a).length = b - a := by
  simp only [List.length_drop, List.length_take]
  omega

/-! ## Claim theorems on the crop arithmetic -/

/-- C1: for every buffer whose frames length is an exact multiple of
`bytes_per_sample * num_channels` and all percents `0 ≤ sp < ep ≤ 1`,
`_cropSound` returns without error the byte slice
`frames[floor(sp * total_frame_count) * frame_size :
floor(ep * total_frame_count) * frame_size]`, and the length of the result
is a multiple of the frame size (so an empty result, equal indices after
flooring, is an ordinary output). -/
theorem crop_slice_and_frame_alignment (audio_data : List ℕ) (bps nc tfc : ℕ)
    (sp ep : ℚ) (hbps : 0 < bps) (hnc : 0 < nc)
    (hlen : audio_data.length = tfc * (bps * nc))
    (h0 : 0 ≤ sp) (h1 : ep ≤ 1) (hlt : sp < ep) :
    cropSound audio_data bps nc (some sp) (some ep) =
      .ok ((audio_data.take ((⌊ep * (tfc : ℚ)⌋).toNat * (bps * nc))).drop
        ((⌊sp * (tfc : ℚ)⌋).toNat * (bps * nc))) ∧
    (bps * nc) ∣ ((audio_data.take ((⌊ep * (tfc : ℚ)⌋).toNat * (bps * nc))).drop
        ((⌊sp * (tfc : ℚ)⌋).toNat * (bps * nc))).length := by
  have hfs : 0 < bps * nc := Nat.mul_pos hbps hnc
  refine ⟨cropSound_ok audio_data bps nc tfc sp ep hfs hlen h0 h1 hlt, ?_⟩
  have hble : (⌊ep * (tfc : ℚ)⌋).toNat ≤ tfc := floor_mul_le_tfc ep tfc h1
  have hmul : (⌊ep * (tfc : ℚ)⌋).toNat * (bps * nc) ≤ audio_data.length := by
    rw [hlen]
    exact Nat.mul_le_mul_right _ hble
  rw [take_drop_length _ _ _ hmul]
  have hsub : (⌊ep * (tfc : ℚ)⌋).toNat * (bps * nc)
      - (⌊sp * (tfc : ℚ)⌋).toNat * (bps * nc)
      = ((⌊ep * (tfc : ℚ)⌋).toNat - (⌊sp * (tfc : ℚ)⌋).toNat) * (bps * nc) :=
    (Nat.sub_mul _ _ _).symm
  rw [hsub]
  exact dvd_mul_left _ _

theorem crop_slice_and_frame_alignment_witness :
    ((0 : ℚ) ≤ 1/4 ∧ (1/2 : ℚ) ≤ 1 ∧ (1/4 : ℚ) < 1/2) ∧
    (cropSound [0, 1, 2, 3, 4, 5, 6, 7] 2 1 (some (1/4)) (some (1/2)) =
        .ok (([0, 1, 2, 3, 4, 5, 6, 7].take
            ((⌊(1/2 : ℚ) * ((4 : ℕ) : ℚ)⌋).toNat * (2 * 1))).drop
          ((⌊(1/4 : ℚ) * ((4 : ℕ) : ℚ)⌋).toNat * (2 * 1))) ∧
      (2 * 1) ∣ (([0, 1, 2, 3, 4, 5, 6, 7].take
            ((⌊(1/2 : ℚ) * ((4 : ℕ) : ℚ)⌋).toNat * (2 * 1))).drop
          ((⌊(1/4 : ℚ) * ((4 : ℕ) : ℚ)⌋).toNat * (2 * 1))).length) :=
  ⟨⟨by norm_num, by norm_num, by norm_num⟩,
    crop_slice_and_frame_alignment [0, 1, 2, 3, 4, 5, 6, 7] 2 1 4 (1/4) (1/2)
      (by decide) (by decide) (by decide) (by norm_num) (by norm_num) (by norm_num)⟩

/-- C6: cropping with `start_percent = 0` and `end_percent = 1` returns the
original frames byte string exactly; the function reads nothing else of the
buffer, so all other metadata is untouched. -/
theorem crop_full_range_roundtrip (audio_data : List ℕ) (bps nc tfc : ℕ)
    (hbps : 0 < bps) (hnc : 0 < nc)
    (hlen : audio_data.length = tfc * (bps * nc)) :
    cropSound audio_data bps nc (some 0) (some 1) = .ok audio_data := by
  have hfs : 0 < bps * nc := Nat.mul_pos hbps hnc
  have h := cropSound_ok audio_data bps nc tfc 0 1 hfs hlen le_rfl le_rfl one_pos
  have e1 : ((⌊(0 : ℚ) * ((tfc : ℕ) : ℚ)⌋).toNat * (bps * nc)) = 0 := by
    rw [zero_mul, Int.floor_zero, Int.toNat_zero, zero_mul]
  have e2 : ((⌊(1 : ℚ) * ((tfc : ℕ) : ℚ)⌋).toNat * (bps * nc)) = audio_data.length := by
    rw [one_mul, Int.floor_natCast, Int.toNat_natCast, hlen]
  rw [h, e1, e2, List.take_length, List.drop_zero]

theorem crop_full_range_roundtrip_witness :
    0 < 2 ∧ 0 < 1 ∧ ([0, 1, 2, 3, 4, 5, 6, 7] : List ℕ).length = 4 * (2 * 1) ∧
    cropSound [0, 1, 2, 3, 4, 5, 6, 7] 2 1 (some 0) (some 1) =
      .ok [0, 1, 2, 3, 4, 5, 6, 7] :=
  ⟨by decide, by decide, by decide,
    crop_full_range_roundtrip [0, 1, 2, 3, 4, 5, 6, 7] 2 1 4
      (by decide) (by decide) (by decide)⟩

/-- C7: with the start percent fixed and valid, the length of the cropped
result is monotone non-decreasing in the end percent. -/
theorem crop_length_monotone_in_end (audio_data : List ℕ) (bps nc tfc : ℕ)
    (sp ep1 ep2 : ℚ) (out1 out2 : List ℕ)
    (hbps : 0 < bps) (hnc : 0 < nc)
    (hlen : audio_data.length = tfc * (bps * nc))
    (h0 : 0 ≤ sp) (hlt : sp < ep1) (h12 : ep1 ≤ ep2) (h2 : ep2 ≤ 1)
    (ho1 : cropSound audio_data bps nc (some sp) (some ep1) = .ok out1)
    (ho2 : cropSound audio_data bps nc (some sp) (some ep2) = .ok out2) :
    out1.length ≤ out2.length := by
  have hfs : 0 < bps * nc := Nat.mul_pos hbps hnc
  have he1 : ep1 ≤ 1 := le_trans h12 h2
  have hP1 := cropSound_ok audio_data bps nc tfc sp ep1 hfs hlen h0 he1 hlt
  have hP2 := cropSound_ok audio_data bps nc tfc sp ep2 hfs hlen h0 h2
    (lt_of_lt_of_le hlt h12)
  rw [hP1] at ho1
  rw [hP2] at ho2
  simp only [Except.ok.injEq] at ho1 ho2
  subst ho1
  subst ho2
  have hm1 : (⌊ep1 * (tfc : ℚ)⌋).toNat * (bps * nc) ≤ audio_data.length := by
    rw [hlen]
    exact Nat.mul_le_mul_right _ (floor_mul_le_tfc ep1 tfc he1)
  have hm2 : (⌊ep2 * (tfc : ℚ)⌋).toNat * (bps * nc) ≤ audio_data.length := by
    rw [hlen]
    exact Nat.mul_le_mul_right _ (floor_mul_le_tfc ep2 tfc h2)
  rw [take_drop_length _ _ _ hm1, take_drop_length _ _ _ hm2]
  have hb : (⌊ep1 * (tfc : ℚ)⌋).toNat ≤ (⌊ep2 * (tfc : ℚ)⌋).toNat := by
    have hmul : ep1 * (tfc : ℚ) ≤ ep2 * (tfc : ℚ) :=
      mul_le_mul_of_nonneg_right h12 (Nat.cast_nonneg tfc)
    exact Int.toNat_le_toNat (Int.floor_mono hmul)
  have := Nat.mul_le_mul_right (bps * nc) hb
  omega

theorem crop_length_monotone_in_end_witness :
    cropSound [0, 1, 2, 3, 4, 5, 6, 7] 2 1 (some (1/4)) (some (1/2)) =
      .ok [2, 3] ∧
    cropSound [0, 1, 2, 3, 4, 5, 6, 7] 2 1 (some (1/4)) (some 1) =
      .ok [2, 3, 4, 5, 6, 7] ∧
    ([2, 3] : List ℕ).length ≤ ([2, 3, 4, 5, 6, 7] : List ℕ).length := by
  have ho1 : cropSound [0, 1, 2, 3, 4, 5, 6, 7] 2 1 (some (1/4)) (some (1/2)) =
      .ok [2, 3] := by
    norm_num [cropSound, calculate_index, pyint, pySlice]
    decide
  have ho2 : cropSound [0, 1, 2, 3, 4, 5, 6, 7] 2 1 (some (1/4)) (some 1) =
      .ok [2, 3, 4, 5, 6, 7] := by
    norm_num [cropSound, calculate_index, pyint, pySlice]
    decide
  exact ⟨ho1, ho2,
    crop_length_monotone_in_end [0, 1, 2, 3, 4, 5, 6, 7] 2 1 4 (1/4) (1/2) 1
      [2, 3] [2, 3, 4, 5, 6, 7] (by decide) (by decide) (by decide)
      (by norm_num) (by norm_num) (by norm_num) (by norm_num) ho1 ho2⟩

/-- C5: on a buffer with positive rate, width and channel count and
non-empty frames, `_calculatePercent` returns, without error, the pair whose
start percent is `start_sec / total_duration` (or `0` when missing) and
whose end percent is `end_sec / total_duration` (or `1` when missing), with
`total_duration = len(frames) / (sample_rate * bytes_per_sample *
num_channels)`; being a Lean function of its arguments it is pure and
deterministic, and no range validation is performed. -/
theorem calculatePercent_formula (audio_data : List ℕ) (bps nc sr : ℕ)
    (start_sec end_sec : Option ℚ)
    (hbps : 0 < bps) (hnc : 0 < nc) (hsr : 0 < sr) (hne : audio_data ≠ []) :
    calculatePercent audio_data bps nc sr start_sec end_sec =
      .ok (match start_sec with
        | none => 0
        | some s => s / ((audio_data.length : ℚ) / ((sr * bps * nc : ℕ) : ℚ)),
        match end_sec with
        | none => 1
        | some e => e / ((audio_data.length : ℚ) / ((sr * bps * nc : ℕ) : ℚ))) := by
  have hd : ¬(sr * bps * nc = 0) := by positivity
  have hl : audio_data.length ≠ 0 := by
    simpa [List.length_eq_zero] using hne
  have htot : ¬((audio_data.length : ℚ) / ((sr * bps * nc : ℕ) : ℚ) = 0) :=
    div_ne_zero (Nat.cast_ne_zero.mpr hl) (Nat.cast_ne_zero.mpr hd)
  cases start_sec <;> cases end_sec <;>
    simp only [calculatePercent, if_neg hd, if_neg htot]

theorem calculatePercent_formula_witness :
    (List.replicate 16000 0 : List ℕ) ≠ [] ∧
    calculatePercent (List.replicate 16000 0) 2 1 8000 (some (1/4)) none =
      .ok (1/4, 1) ∧
    calculate_index (List.replicate 16000 0) 2 1 (1/4) = 4000 := by
  have hne : (List.replicate 16000 (0 : ℕ)) ≠ [] :=
    List.ne_nil_of_length_pos (by rw [List.length_replicate]; norm_num)
  refine ⟨hne, ?_, ?_⟩
  · have h := calculatePercent_formula (List.replicate 16000 0) 2 1 8000
      (some (1/4)) none (by norm_num) (by norm_num) (by norm_num) hne
    rw [h]
    norm_num
  · norm_num [calculate_index, pyint]

/-- C10: on a buffer with empty frames and positive rate, width and channel
count, a given start or end time reaches the unguarded division by the zero
total duration, and `_calculatePercent` raises `ZeroDivisionError` instead
of returning a percent pair. -/
theorem calculatePercent_empty_frames_raises (bps nc sr : ℕ)
    (start_sec end_sec : Option ℚ)
    (hbps : 0 < bps) (hnc : 0 < nc) (hsr : 0 < sr)
    (hgiven : start_sec ≠ none ∨ end_sec ≠ none) :
    calculatePercent [] bps nc sr start_sec end_sec =
      .error .zeroDivisionError := by
  have hd : ¬(sr * bps * nc = 0) := by positivity
  cases start_sec <;> cases end_sec
  · simp at hgiven
  all_goals simp [calculatePercent, hd]

theorem calculatePercent_empty_frames_raises_witness :
    ((some (1 : ℚ) : Option ℚ) ≠ none ∨ (none : Option ℚ) ≠ none) ∧
    calculatePercent [] 2 1 8000 (some 1) none = .error .zeroDivisionError :=
  ⟨Or.inl (by simp),
    calculatePercent_empty_frames_raises 2 1 8000 (some 1) none
      (by decide) (by decide) (by decide) (Or.inl (by simp))⟩

/-! ## playAudio branch lemmas -/

theorem playAudio_resolve_fail (editFn : String → PlaybackOptions → WavData)
    (now : ℕ) (st : CState) (name : String) (options : PlaybackOptions)
    (h : getByName st.storage name = none) :
    playAudio editFn now st name options =
      (st, [Event.resolve name], .error (.nameMissing name)) := by
  unfold playAudio
  rw [h]

theorem playAudio_file_fail (editFn : String → PlaybackOptions → WavData)
    (now : ℕ) (st : CState) (name : String) (options : PlaybackOptions)
    (audio : AudioMetadata)
    (h : getByName st.storage name = some audio) (hf : audio.fileOk = false) :
    playAudio editFn now st name options =
      ({ st with storage := updateLastPlayedS st.storage name now },
        [Event.resolve name, Event.updateLastPlayed name, Event.fileCheck name],
        .error (.fileNotFound audio.file_path)) := by
  unfold playAudio
  rw [h]
  simp [hf]

theorem playAudio_ok_nosave (editFn : String → PlaybackOptions → WavData)
    (now : ℕ) (st : CState) (name : String) (options : PlaybackOptions)
    (audio : AudioMetadata)
    (h : getByName st.storage name = some audio) (hf : audio.fileOk = true)
    (hsv : options.save = none) :
    playAudio editFn now st name options =
      ((⟨updateLastPlayedS st.storage name now, st.nextHandle + 1⟩ : CState),
        [Event.resolve name, Event.updateLastPlayed name, Event.fileCheck name,
          Event.issue st.nextHandle name (editFn audio.file_path options)],
        .ok st.nextHandle) := by
  unfold playAudio
  rw [h]
  simp [hf, hsv]

theorem playAudio_ok_save_same (editFn : String → PlaybackOptions → WavData)
    (now : ℕ) (st : CState) (name : String) (options : PlaybackOptions)
    (audio : AudioMetadata)
    (h : getByName st.storage name = some audio) (hf : audio.fileOk = true)
    (hsv : options.save = some name) :
    playAudio editFn now st name options =
      ((⟨(updateLastPlayedS st.storage name now).filter
            (fun a => a.name != name) ++ [⟨name, savePath name, true, none⟩],
          st.nextHandle + 1⟩ : CState),
        [Event.resolve name, Event.updateLastPlayed name, Event.fileCheck name,
          Event.issue st.nextHandle name (editFn audio.file_path options),
          Event.removeEntry name, Event.saveEntry name],
        .ok st.nextHandle) := by
  have hany := any_name_update st.storage name now audio h
  have hfil := any_name_filter_self (updateLastPlayedS st.storage name now) name
  unfold playAudio
  rw [h]
  simp [hf, hsv, removeSoundS, addSoundS, hany, hfil]

theorem playAudio_save_other_fail (editFn : String → PlaybackOptions → WavData)
    (now : ℕ) (st : CState) (name sname : String) (options : PlaybackOptions)
    (audio : AudioMetadata)
    (h : getByName st.storage name = some audio) (hf : audio.fileOk = true)
    (hsv : options.save = some sname) (hne : ¬(sname = name))
    (hex : (updateLastPlayedS st.storage name now).any
      (fun a => a.name == sname) = true) :
    playAudio editFn now st name options =
      ((⟨updateLastPlayedS st.storage name now, st.nextHandle + 1⟩ : CState),
        [Event.resolve name, Event.updateLastPlayed name, Event.fileCheck name,
          Event.issue st.nextHandle name (editFn audio.file_path options)],
        .error (.nameExists sname)) := by
  unfold playAudio
  rw [h]
  simp [hf, hsv, hne, addSoundS, hex]

theorem playAudio_save_other_ok (editFn : String → PlaybackOptions → WavData)
    (now : ℕ) (st : CState) (name sname : String) (options : PlaybackOptions)
    (audio : AudioMetadata)
    (h : getByName st.storage name = some audio) (hf : audio.fileOk = true)
    (hsv : options.save = some sname) (hne : ¬(sname = name))
    (hex : (updateLastPlayedS st.storage name now).any
      (fun a => a.name == sname) = false) :
    playAudio editFn now st name options =
      ((⟨updateLastPlayedS st.storage name now
            ++ [⟨sname, savePath sname, true, none⟩], st.nextHandle + 1⟩ : CState),
        [Event.resolve name, Event.updateLastPlayed name, Event.fileCheck name,
          Event.issue st.nextHandle name (editFn audio.file_path options),
          Event.saveEntry sname],
        .ok st.nextHandle) := by
  unfold playAudio
  rw [h]
  simp [hf, hsv, hne, addSoundS, hex]

/-! ## Trace lemmas -/

theorem iws_append (l1 l2 : List Event) :
    issueWaitSeq (l1 ++ l2) = issueWaitSeq l1 ++ issueWaitSeq l2 := by
  unfold issueWaitSeq
  exact List.filterMap_append _ _ _

theorem waited_append (l1 l2 : List Event) :
    waitedHandles (l1 ++ l2) = waitedHandles l1 ++ waitedHandles l2 := by
  unfold waitedHandles
  exact List.filterMap_append _ _ _

theorem iws_map_wait (hs : List ℕ) :
    issueWaitSeq (hs.map Event.wait) = hs.map (fun h => (false, h)) := by
  induction hs with
  | nil => rfl
  | cons h rest ih =>
    simp only [List.map_cons, issueWaitSeq, List.filterMap_cons] at ih ⊢
    rw [ih]

theorem playAudio_no_wait (editFn : String → PlaybackOptions → WavData)
    (now : ℕ) (st : CState) (name : String) (options : PlaybackOptions) :
    waitedHandles (playAudio editFn now st name options).2.1 = [] := by
  rcases hres : getByName st.storage name with _ | audio
  · rw [playAudio_resolve_fail editFn now st name options hres]
    rfl
  · cases hf : audio.fileOk with
    | false =>
      rw [playAudio_file_fail editFn now st name options audio hres hf]
      rfl
    | true =>
      rcases hsv : options.save with _ | sname
      · rw [playAudio_ok_nosave editFn now st name options audio hres hf hsv]
        rfl
      · by_cases hne : sname = name
        · rw [playAudio_ok_save_same editFn now st name options audio hres hf
            (hne ▸ hsv)]
          rfl
        · cases hex : (updateLastPlayedS st.storage name now).any
            (fun a => a.name == sname) with
          | false =>
            rw [playAudio_save_other_ok editFn now st name sname options audio
              hres hf hsv hne hex]
            rfl
          | true =>
            rw [playAudio_save_other_fail editFn now st name sname options audio
              hres hf hsv hne hex]
            rfl

theorem playAudio_iws_ok (editFn : String → PlaybackOptions → WavData)
    (now : ℕ) (st : CState) (name : String) (options : PlaybackOptions)
    (st1 : CState) (tr : List Event) (hd : ℕ)
    (hpa : playAudio editFn now st name options = (st1, tr, .ok hd)) :
    issueWaitSeq tr = [(true, hd)] := by
  rcases hres : getByName st.storage name with _ | audio
  · have heq := (playAudio_resolve_fail editFn now st name options hres).symm.trans hpa
    simp [Prod.mk.injEq] at heq
  · cases hf : audio.fileOk with
    | false =>
      have heq := (playAudio_file_fail editFn now st name options audio
        hres hf).symm.trans hpa
      simp [Prod.mk.injEq] at heq
    | true =>
      rcases hsv : options.save with _ | sname
      · have heq := (playAudio_ok_nosave editFn now st name options audio
          hres hf hsv).symm.trans hpa
        simp only [Prod.mk.injEq, Except.ok.injEq] at heq
        obtain ⟨-, h2, h3⟩ := heq
        subst h2
        subst h3
        rfl
      · by_cases hne : sname = name
        · have heq := (playAudio_ok_save_same editFn now st name options audio
            hres hf (hne ▸ hsv)).symm.trans hpa
          simp only [Prod.mk.injEq, Except.ok.injEq] at heq
          obtain ⟨-, h2, h3⟩ := heq
          subst h2
          subst h3
          rfl
        · cases hex : (updateLastPlayedS st.storage name now).any
            (fun a => a.name == sname) with
          | false =>
            have heq := (playAudio_save_other_ok editFn now st name sname options
              audio hres hf hsv hne hex).symm.trans hpa
            simp only [Prod.mk.injEq, Except.ok.injEq] at heq
            obtain ⟨-, h2, h3⟩ := heq
            subst h2
            subst h3
            rfl
          | true =>
            have heq := (playAudio_save_other_fail editFn now st name sname options
              audio hres hf hsv hne hex).symm.trans hpa
            simp [Prod.mk.injEq] at heq

theorem issueLoop_ok_parts (editFn : String → PlaybackOptions → WavData)
    (now : ℕ) (names : List String) :
    ∀ (st : CState) (options : PlaybackOptions) (st1 : CState) (tr : List Event)
      (hs : List ℕ),
    issueLoop editFn now st names options = (st1, tr, .ok hs) →
    issueWaitSeq tr = hs.map (fun h => (true, h)) ∧ waitedHandles tr = [] := by
  induction names with
  | nil =>
    intro st options st1 tr hs hloop
    unfold issueLoop at hloop
    simp only [Prod.mk.injEq, Except.ok.injEq] at hloop
    obtain ⟨-, h2, h3⟩ := hloop
    subst h2
    subst h3
    exact ⟨rfl, rfl⟩
  | cons n rest ih =>
    intro st options st1 tr hs hloop
    unfold issueLoop at hloop
    rcases hpa : playAudio editFn now st n options with ⟨stA, trA, rA⟩
    rw [hpa] at hloop
    cases rA with
    | error e => simp [Prod.mk.injEq] at hloop
    | ok hA =>
      simp only [] at hloop
      rcases hil : issueLoop editFn now stA rest options with ⟨stB, trB, rB⟩
      rw [hil] at hloop
      cases rB with
      | error e => simp [Prod.mk.injEq] at hloop
      | ok hsB =>
        simp only [Prod.mk.injEq, Except.ok.injEq] at hloop
        obtain ⟨-, h2, h3⟩ := hloop
        subst h2
        subst h3
        obtain ⟨ihw, ihwait⟩ := ih stA options stB trB hsB hil
        constructor
        · rw [iws_append, playAudio_iws_ok editFn now st n options stA trA hA hpa,
            ihw]
          rfl
        · rw [waited_append, ihwait]
          have hnw := playAudio_no_wait editFn now st n options
          rw [hpa] at hnw
          simpa using hnw

theorem playAudioWait_iws (editFn : String → PlaybackOptions → WavData)
    (now : ℕ) (st : CState) (name : String) (options : PlaybackOptions)
    (st1 : CState) (tr : List Event)
    (hpw : playAudioWait editFn now st name options = (st1, tr, .ok ())) :
    ∃ h, issueWaitSeq tr = [(true, h), (false, h)] := by
  unfold playAudioWait at hpw
  rcases hpa : playAudio editFn now st name options with ⟨stA, trA, rA⟩
  rw [hpa] at hpw
  cases rA with
  | error e => simp [Prod.mk.injEq] at hpw
  | ok hA =>
    simp only [Prod.mk.injEq] at hpw
    obtain ⟨-, h2, -⟩ := hpw
    subst h2
    refine ⟨hA, ?_⟩
    rw [iws_append, playAudio_iws_ok editFn now st name options stA trA hA hpa]
    rfl

theorem seqLoop_iws (editFn : String → PlaybackOptions → WavData)
    (now : ℕ) (names : List String) :
    ∀ (st : CState) (options : PlaybackOptions) (st1 : CState) (tr : List Event),
    seqLoop editFn now st names options = (st1, tr, .ok ()) →
    ∃ ws, issueWaitSeq tr = pairSeq ws := by
  induction names with
  | nil =>
    intro st options st1 tr h
    unfold seqLoop at h
    simp only [Prod.mk.injEq] at h
    obtain ⟨-, h2, -⟩ := h
    subst h2
    exact ⟨[], rfl⟩
  | cons n rest ih =>
    intro st options st1 tr h
    unfold seqLoop at h
    rcases hpw : playAudioWait editFn now st n options with ⟨stA, trA, rA⟩
    rw [hpw] at h
    cases rA with
    | error e => simp [Prod.mk.injEq] at h
    | ok u =>
      cases u
      simp only [] at h
      rcases hsl : seqLoop editFn now stA rest options with ⟨stB, trB, rB⟩
      rw [hsl] at h
      simp only [Prod.mk.injEq] at h
      obtain ⟨-, h2, h3⟩ := h
      subst h2
      rw [h3] at hsl
      obtain ⟨ws, hws⟩ := ih stA options stB trB hsl
      obtain ⟨hA, hhA⟩ := playAudioWait_iws editFn now st n options stA trA hpw
      refine ⟨hA :: ws, ?_⟩
      rw [iws_append, hhA, hws]
      rfl

/-! ## Claim theorems on the orchestration -/

/-- C3: a call to `playSequence` or `playParallel` with more than one name
and a save target raises `NotImplementedError` (named
`UnsupportedOperation` in the spec taxonomy) before anything happens: the returned state is the
initial state and the event trace is empty, so no `last_played` update, no
effects-engine invocation, no sink submission and no storage mutation has
occurred. -/
theorem save_arity_precheck (editFn : String → PlaybackOptions → WavData)
    (now : ℕ) (st : CState) (names : List String) (options : PlaybackOptions)
    (s : String) (hlen : 1 < names.length) (hsave : options.save = some s) :
    playSequence editFn now st names options =
      (st, [], .error .notImplementedError) ∧
    playParallel editFn now st names options =
      (st, [], .error .notImplementedError) := by
  have hc : names.length > 1 ∧ options.save ≠ none := ⟨hlen, by simp [hsave]⟩
  constructor
  · unfold playSequence
    rw [if_pos hc]
  · unfold playParallel
    rw [if_pos hc]

theorem save_arity_precheck_witness :
    1 < (["a", "b"] : List String).length ∧
    playSequence (fun _ _ => ⟨[], 1, 1, 1⟩) 0 ⟨[], 0⟩ ["a", "b"]
        ⟨[], none, none, some "x"⟩ =
      (⟨[], 0⟩, [], .error .notImplementedError) ∧
    playParallel (fun _ _ => ⟨[], 1, 1, 1⟩) 0 ⟨[], 0⟩ ["a", "b"]
        ⟨[], none, none, some "x"⟩ =
      (⟨[], 0⟩, [], .error .notImplementedError) :=
  ⟨by decide,
    (save_arity_precheck (fun _ _ => ⟨[], 1, 1, 1⟩) 0 ⟨[], 0⟩ ["a", "b"]
      ⟨[], none, none, some "x"⟩ "x" (by decide) rfl).1,
    (save_arity_precheck (fun _ _ => ⟨[], 1, 1, 1⟩) 0 ⟨[], 0⟩ ["a", "b"]
      ⟨[], none, none, some "x"⟩ "x" (by decide) rfl).2⟩

/-- C2 counterexample: with `"a"` absent from storage and `"b"` present and
playable, `playParallel ["a", "b"]` with no save target raises
`NameMissing "a"` at once: the trace shows no handle was issued for any
name (in particular not for the subsequent name `"b"`) and nothing was
waited on, refuting the claim that remaining names are still attempted and
that the failure is reported only after all waits settle. -/
theorem parallel_best_effort_refuted :
    (playParallel (fun _ _ => ⟨[], 1, 1, 1⟩) 0 ⟨[⟨"b", "pb", true, none⟩], 0⟩
        ["a", "b"] ⟨[], none, none, none⟩).2.2 = .error (.nameMissing "a") ∧
    issuedHandles (playParallel (fun _ _ => ⟨[], 1, 1, 1⟩) 0
        ⟨[⟨"b", "pb", true, none⟩], 0⟩ ["a", "b"]
        ⟨[], none, none, none⟩).2.1 = [] ∧
    waitedHandles (playParallel (fun _ _ => ⟨[], 1, 1, 1⟩) 0
        ⟨[⟨"b", "pb", true, none⟩], 0⟩ ["a", "b"]
        ⟨[], none, none, none⟩).2.1 = [] :=
  ⟨rfl, rfl, rfl⟩

/-- C2 (amended): when `playOne` issuance fails on a name, `playParallel`
(with no save target) propagates that failure immediately: the call returns
the state, trace and error of the failing attempt, so no later name is attempted,
no handle is issued for it, and no wait occurs.  The initial state is
arbitrary, so this also covers a failure in the middle of the list, the
earlier names having already been issued. -/
theorem parallel_abort_on_failure (editFn : String → PlaybackOptions → WavData)
    (now : ℕ) (st : CState) (n : String) (rest : List String)
    (options : PlaybackOptions) (e : CmdError)
    (hsave : options.save = none)
    (hfail : (playAudio editFn now st n options).2.2 = .error e) :
    playParallel editFn now st (n :: rest) options =
      ((playAudio editFn now st n options).1,
        (playAudio editFn now st n options).2.1, .error e) ∧
    waitedHandles ((playAudio editFn now st n options).2.1) = [] := by
  constructor
  · rcases hpa : playAudio editFn now st n options with ⟨stA, trA, rA⟩
    rw [hpa] at hfail
    simp only [] at hfail
    subst hfail
    unfold playParallel
    rw [if_neg (by simp [hsave])]
    unfold issueLoop
    rw [hpa]
  · exact playAudio_no_wait editFn now st n options

theorem parallel_abort_on_failure_witness :
    (playAudio (fun _ _ => ⟨[], 1, 1, 1⟩) 0 ⟨[], 0⟩ "a"
        ⟨[], none, none, none⟩).2.2 = .error (.nameMissing "a") ∧
    (playParallel (fun _ _ => ⟨[], 1, 1, 1⟩) 0 ⟨[], 0⟩ ["a", "b"]
        ⟨[], none, none, none⟩ =
      ((playAudio (fun _ _ => ⟨[], 1, 1, 1⟩) 0 ⟨[], 0⟩ "a"
          ⟨[], none, none, none⟩).1,
        (playAudio (fun _ _ => ⟨[], 1, 1, 1⟩) 0 ⟨[], 0⟩ "a"
          ⟨[], none, none, none⟩).2.1, .error (.nameMissing "a")) ∧
      waitedHandles ((playAudio (fun _ _ => ⟨[], 1, 1, 1⟩) 0 ⟨[], 0⟩ "a"
          ⟨[], none, none, none⟩).2.1) = []) :=
  ⟨rfl, parallel_abort_on_failure (fun _ _ => ⟨[], 1, 1, 1⟩) 0 ⟨[], 0⟩ "a"
    ["b"] ⟨[], none, none, none⟩ (.nameMissing "a") rfl rfl⟩

/-- C8: whenever `playAudio` resolves its name in storage, the
`last_played` update is invoked exactly once, directly after resolution and
before the file-existence check (hence before any sink submission, which
can only appear later in the trace), and even when the call subsequently
fails the updated timestamp is present in the final storage: it is never
reverted on a failure. -/
theorem play_updates_last_played_once
    (editFn : String → PlaybackOptions → WavData)
    (now : ℕ) (st : CState) (name : String) (options : PlaybackOptions)
    (audio : AudioMetadata)
    (hres : getByName st.storage name = some audio) :
    (∃ rest, (playAudio editFn now st name options).2.1 =
        Event.resolve name :: Event.updateLastPlayed name ::
          Event.fileCheck name :: rest ∧
      ∀ m, Event.updateLastPlayed m ∉ rest) ∧
    (∀ e, (playAudio editFn now st name options).2.2 = .error e →
      ∃ a2, getByName (playAudio editFn now st name options).1.storage name
          = some a2 ∧ a2.lastPlayed = some now) := by
  cases hf : audio.fileOk with
  | false =>
    rw [playAudio_file_fail editFn now st name options audio hres hf]
    refine ⟨⟨[], rfl, by simp⟩, ?_⟩
    intro e he
    exact ⟨_, getByName_update st.storage name now audio hres, rfl⟩
  | true =>
    rcases hsv : options.save with _ | sname
    · rw [playAudio_ok_nosave editFn now st name options audio hres hf hsv]
      refine ⟨⟨[Event.issue st.nextHandle name (editFn audio.file_path options)],
        rfl, by simp⟩, ?_⟩
      intro e he
      simp at he
    · by_cases hne : sname = name
      · rw [playAudio_ok_save_same editFn now st name options audio hres hf
          (hne ▸ hsv)]
        refine ⟨⟨[Event.issue st.nextHandle name (editFn audio.file_path options),
          Event.removeEntry name, Event.saveEntry name], rfl, by simp⟩, ?_⟩
        intro e he
        simp at he
      · cases hex : (updateLastPlayedS st.storage name now).any
          (fun a => a.name == sname) with
        | false =>
          rw [playAudio_save_other_ok editFn now st name sname options audio
            hres hf hsv hne hex]
          refine ⟨⟨[Event.issue st.nextHandle name (editFn audio.file_path options),
            Event.saveEntry sname], rfl, by simp⟩, ?_⟩
          intro e he
          simp at he
        | true =>
          rw [playAudio_save_other_fail editFn now st name sname options audio
            hres hf hsv hne hex]
          refine ⟨⟨[Event.issue st.nextHandle name (editFn audio.file_path options)],
            rfl, by simp⟩, ?_⟩
          intro e he
          exact ⟨_, getByName_update st.storage name now audio hres, rfl⟩

theorem play_updates_last_played_once_witness :
    getByName [⟨"x", "px", false, none⟩] "x" = some ⟨"x", "px", false, none⟩ ∧
    ((∃ rest, (playAudio (fun _ _ => ⟨[], 1, 1, 1⟩) 0
          ⟨[⟨"x", "px", false, none⟩], 0⟩ "x" ⟨[], none, none, none⟩).2.1 =
        Event.resolve "x" :: Event.updateLastPlayed "x" ::
          Event.fileCheck "x" :: rest ∧
      ∀ m, Event.updateLastPlayed m ∉ rest) ∧
    (∀ e, (playAudio (fun _ _ => ⟨[], 1, 1, 1⟩) 0
          ⟨[⟨"x", "px", false, none⟩], 0⟩ "x" ⟨[], none, none, none⟩).2.2 =
        .error e →
      ∃ a2, getByName (playAudio (fun _ _ => ⟨[], 1, 1, 1⟩) 0
            ⟨[⟨"x", "px", false, none⟩], 0⟩ "x"
            ⟨[], none, none, none⟩).1.storage "x" = some a2 ∧
        a2.lastPlayed = some 0)) :=
  ⟨rfl, play_updates_last_played_once (fun _ _ => ⟨[], 1, 1, 1⟩) 0
    ⟨[⟨"x", "px", false, none⟩], 0⟩ "x" ⟨[], none, none, none⟩
    ⟨"x", "px", false, none⟩ rfl⟩

/-- C4: a successful overwrite-save play (the name resolves, its file
exists, and `options.save` equals the played name) returns a handle; its
trace removes the original entry before `_saveAudio` registers the new one;
afterwards the archive holds exactly one entry with that name (never zero,
never two), and archive-wide uniqueness of names is preserved. -/
theorem overwrite_save_exactly_one (editFn : String → PlaybackOptions → WavData)
    (now : ℕ) (st : CState) (name : String) (options : PlaybackOptions)
    (audio : AudioMetadata)
    (hres : getByName st.storage name = some audio) (hf : audio.fileOk = true)
    (hsv : options.save = some name) (hu : uniqueNames st.storage) :
    (playAudio editFn now st name options).2.2 = .ok st.nextHandle ∧
    (playAudio editFn now st name options).2.1 =
      [Event.resolve name, Event.updateLastPlayed name, Event.fileCheck name,
        Event.issue st.nextHandle name (editFn audio.file_path options),
        Event.removeEntry name, Event.saveEntry name] ∧
    countName (playAudio editFn now st name options).1.storage name = 1 ∧
    uniqueNames (playAudio editFn now st name options).1.storage := by
  rw [playAudio_ok_save_same editFn now st name options audio hres hf hsv]
  refine ⟨rfl, rfl, ?_, ?_⟩
  · show countName ((updateLastPlayedS st.storage name now).filter
        (fun a => a.name != name) ++ [⟨name, savePath name, true, none⟩]) name = 1
    rw [countName_append, countName_filter_self]
    simp [countName, List.countP_cons]
  · intro m
    show countName ((updateLastPlayedS st.storage name now).filter
        (fun a => a.name != name) ++ [⟨name, savePath name, true, none⟩]) m ≤ 1
    rw [countName_append]
    by_cases hm : name = m
    · subst hm
      rw [countName_filter_self]
      simp [countName, List.countP_cons]
    · have h1 : countName ((updateLastPlayedS st.storage name now).filter
          (fun a => a.name != name)) m ≤ countName st.storage m := by
        calc countName ((updateLastPlayedS st.storage name now).filter
              (fun a => a.name != name)) m
            ≤ countName (updateLastPlayedS st.storage name now) m :=
              countName_filter_le _ _ _
          _ = countName st.storage m := countName_update _ _ _ _
      have h2 : countName [(⟨name, savePath name, true, none⟩ : AudioMetadata)] m
          = 0 := by
        simp [countName, List.countP_cons, hm]
      have h3 := hu m
      omega

theorem overwrite_save_exactly_one_witness :
    getByName [⟨"x", "px", true, none⟩] "x" = some ⟨"x", "px", true, none⟩ ∧
    ((playAudio (fun _ _ => ⟨[], 1, 1, 1⟩) 0 ⟨[⟨"x", "px", true, none⟩], 0⟩
        "x" ⟨[], none, none, some "x"⟩).2.2 = .ok 0 ∧
    (playAudio (fun _ _ => ⟨[], 1, 1, 1⟩) 0 ⟨[⟨"x", "px", true, none⟩], 0⟩
        "x" ⟨[], none, none, some "x"⟩).2.1 =
      [Event.resolve "x", Event.updateLastPlayed "x", Event.fileCheck "x",
        Event.issue 0 "x" ⟨[], 1, 1, 1⟩,
        Event.removeEntry "x", Event.saveEntry "x"] ∧
    countName (playAudio (fun _ _ => ⟨[], 1, 1, 1⟩) 0
        ⟨[⟨"x", "px", true, none⟩], 0⟩ "x"
        ⟨[], none, none, some "x"⟩).1.storage "x" = 1 ∧
    uniqueNames (playAudio (fun _ _ => ⟨[], 1, 1, 1⟩) 0
        ⟨[⟨"x", "px", true, none⟩], 0⟩ "x"
        ⟨[], none, none, some "x"⟩).1.storage) := by
  have hu : uniqueNames [⟨"x", "px", true, none⟩] := by
    intro n
    simp only [countName, List.countP_cons, List.countP_nil]
    split <;> simp
  exact ⟨rfl, overwrite_save_exactly_one (fun _ _ => ⟨[], 1, 1, 1⟩) 0
    ⟨[⟨"x", "px", true, none⟩], 0⟩ "x" ⟨[], none, none, some "x"⟩
    ⟨"x", "px", true, none⟩ rfl rfl rfl hu⟩

/-- C9: when `playParallel` succeeds in issuing every sound, its full trace
submits every handle to the sink before any wait happens, and then waits in
exactly the issuance order; `playSequence`, by contrast, waits for each
sound directly after issuing it, before the next sound is issued (the
issue/wait subsequence of its trace alternates issue then wait per
handle). -/
theorem parallel_issue_order_sequence_alternation
    (editFn : String → PlaybackOptions → WavData) (now : ℕ) (st : CState)
    (names : List String) (options : PlaybackOptions) (hs : List ℕ)
    (harity : ¬(names.length > 1 ∧ options.save ≠ none))
    (hpar : (issueLoop editFn now st names options).2.2 = .ok hs)
    (hseq : (seqLoop editFn now st names options).2.2 = .ok ()) :
    playParallel editFn now st names options =
      ((issueLoop editFn now st names options).1,
        (issueLoop editFn now st names options).2.1 ++ hs.map Event.wait,
        .ok ()) ∧
    issueWaitSeq ((issueLoop editFn now st names options).2.1
        ++ hs.map Event.wait) =
      hs.map (fun h => (true, h)) ++ hs.map (fun h => (false, h)) ∧
    playSequence editFn now st names options =
      seqLoop editFn now st names options ∧
    (∃ ws, issueWaitSeq ((seqLoop editFn now st names options).2.1)
      = pairSeq ws) := by
  rcases hil : issueLoop editFn now st names options with ⟨stP, trP, rP⟩
  rw [hil] at hpar
  simp only [] at hpar
  subst hpar
  rcases hsl : seqLoop editFn now st names options with ⟨stS, trS, rS⟩
  rw [hsl] at hseq
  simp only [] at hseq
  subst hseq
  obtain ⟨hiws, hwaits⟩ :=
    issueLoop_ok_parts editFn now names st options stP trP hs hil
  refine ⟨?_, ?_, ?_, ?_⟩
  · unfold playParallel
    rw [if_neg harity, hil]
  · show issueWaitSeq (trP ++ hs.map Event.wait) =
      hs.map (fun h => (true, h)) ++ hs.map (fun h => (false, h))
    rw [iws_append, hiws, iws_map_wait]
  · unfold playSequence
    rw [if_neg harity]
    exact hsl
  · show ∃ ws, issueWaitSeq trS = pairSeq ws
    exact seqLoop_iws editFn now names st options stS trS hsl

theorem parallel_issue_order_sequence_alternation_witness :
    (issueLoop (fun _ _ => ⟨[], 1, 1, 1⟩) 0
      (⟨[⟨"a", "pa", true, none⟩, ⟨"b", "pb", true, none⟩,
          ⟨"c", "pc", true, none⟩], 0⟩ : CState)
      ["a", "b", "c"] ⟨[], none, none, none⟩).2.2 = .ok [0, 1, 2] ∧
    (seqLoop (fun _ _ => ⟨[], 1, 1, 1⟩) 0
      (⟨[⟨"a", "pa", true, none⟩, ⟨"b", "pb", true, none⟩,
          ⟨"c", "pc", true, none⟩], 0⟩ : CState)
      ["a", "b", "c"] ⟨[], none, none, none⟩).2.2 = .ok () ∧
    (playParallel (fun _ _ => ⟨[], 1, 1, 1⟩) 0
        (⟨[⟨"a", "pa", true, none⟩, ⟨"b", "pb", true, none⟩,
            ⟨"c", "pc", true, none⟩], 0⟩ : CState)
        ["a", "b", "c"] ⟨[], none, none, none⟩ =
      ((issueLoop (fun _ _ => ⟨[], 1, 1, 1⟩) 0
          (⟨[⟨"a", "pa", true, none⟩, ⟨"b", "pb", true, none⟩,
              ⟨"c", "pc", true, none⟩], 0⟩ : CState)
          ["a", "b", "c"] ⟨[], none, none, none⟩).1,
        (issueLoop (fun _ _ => ⟨[], 1, 1, 1⟩) 0
          (⟨[⟨"a", "pa", true, none⟩, ⟨"b", "pb", true, none⟩,
              ⟨"c", "pc", true, none⟩], 0⟩ : CState)
          ["a", "b", "c"] ⟨[], none, none, none⟩).2.1
          ++ [0, 1, 2].map Event.wait, .ok ()) ∧
    issueWaitSeq ((issueLoop (fun _ _ => ⟨[], 1, 1, 1⟩) 0
          (⟨[⟨"a", "pa", true, none⟩, ⟨"b", "pb", true, none⟩,
              ⟨"c", "pc", true, none⟩], 0⟩ : CState)
          ["a", "b", "c"] ⟨[], none, none, none⟩).2.1
        ++ [0, 1, 2].map Event.wait) =
      [0, 1, 2].map (fun h => (true, h)) ++ [0, 1, 2].map (fun h => (false, h)) ∧
    playSequence (fun _ _ => ⟨[], 1, 1, 1⟩) 0
        (⟨[⟨"a", "pa", true, none⟩, ⟨"b", "pb", true, none⟩,
            ⟨"c", "pc", true, none⟩], 0⟩ : CState)
        ["a", "b", "c"] ⟨[], none, none, none⟩ =
      seqLoop (fun _ _ => ⟨[], 1, 1, 1⟩) 0
        (⟨[⟨"a", "pa", true, none⟩, ⟨"b", "pb", true, none⟩,
            ⟨"c", "pc", true, none⟩], 0⟩ : CState)
        ["a", "b", "c"] ⟨[], none, none, none⟩ ∧
    (∃ ws, issueWaitSeq ((seqLoop (fun _ _ => ⟨[], 1, 1, 1⟩) 0
          (⟨[⟨"a", "pa", true, none⟩, ⟨"b", "pb", true, none⟩,
              ⟨"c", "pc", true, none⟩], 0⟩ : CState)
          ["a", "b", "c"] ⟨[], none, none, none⟩).2.1) = pairSeq ws)) :=
  ⟨rfl, rfl, parallel_issue_order_sequence_alternation (fun _ _ => ⟨[], 1, 1, 1⟩)
    0 (⟨[⟨"a", "pa", true, none⟩, ⟨"b", "pb", true, none⟩,
        ⟨"c", "pc", true, none⟩], 0⟩ : CState)
    ["a", "b", "c"] ⟨[], none, none, none⟩ [0, 1, 2]
    (by simp) rfl rfl⟩

end AudioArchive
